import Mathlib

/-!
Shallow embedding of `plugins/3MFReader/ThreeMFWorkspaceReader.py` (Cura).

The reader imports a workspace archive into a container registry (the
"Entity Store").  The embedding models the registry as explicit state that
is threaded through every pass of `preRead` / `read`; the external
collaborators (mesh reader, dialog, preferences, `uniqueName` of the
registry, the serialization format) are modelled from the spec where the
repository does not contain their code.  Python's `KeyError` /
`AttributeError` exceptions are modelled with `Except`.
-/

/-- A definition container: identity plus opaque serialized body. -/
structure DefinitionContainer where
  id : String
  payload : String
deriving DecidableEq, Repr

/-- An instance container (user profile, quality-changes profile or
material).  `metaType` is `getMetaDataEntry("type")`, `metaExtruder` and
`metaMachine` the entries read by the user-profile branch of `read`. -/
structure InstanceContainer where
  id : String
  name : String
  metaType : Option String
  metaExtruder : Option String
  metaMachine : Option String
  payload : String
deriving DecidableEq, Repr

/-- A reference held by a stack to one of its containers
(`ContainerStack.findContainer({"type": ...})` matches on `refType`). -/
structure ContainerRef where
  refId : String
  refType : Option String
deriving DecidableEq, Repr

/-- A container stack.  `metaType` is `getMetaDataEntry("type")`
(`"extruder_train"` marks an extruder), `metaPosition` its position entry,
`containers` the ordered references, `nextStack` the `setNextStack` link. -/
structure ContainerStack where
  id : String
  name : String
  metaType : Option String
  metaPosition : Option String
  containers : List ContainerRef
  payload : String
  nextStack : Option String
deriving DecidableEq, Repr

/-- The Entity Store (ContainerRegistry): definition containers, instance
containers (materials and profiles) and container stacks. -/
structure Store where
  definitions : List DefinitionContainer
  instanceContainers : List InstanceContainer
  containerStacks : List ContainerStack
deriving DecidableEq, Repr

/-- An archive entry: its path and the data its bytes deserialize to.
The serialization grammar is opaque in the spec, so the entry carries the
already-parsed fields each container class would read from the bytes. -/
structure FileData where
  name : String
  metaType : Option String
  metaExtruder : Option String
  metaMachine : Option String
  metaPosition : Option String
  containers : List ContainerRef
  payload : String
deriving DecidableEq, Repr

structure ArchiveEntry where
  path : String
  data : FileData
deriving DecidableEq, Repr

/-- Modelled from the spec: deserialization is an opaque parse contract
("in-place mutation of an existing Entity's payload"); it fills every
serialized field of the container from the file data and keeps the
container's identity. -/
def InstanceContainer.deserialize (c : InstanceContainer) (d : FileData) : InstanceContainer :=
  { c with name := d.name, metaType := d.metaType, metaExtruder := d.metaExtruder,
           metaMachine := d.metaMachine, payload := d.payload }

/-- Modelled from the spec: stack deserialization, keeping the identity. -/
def ContainerStack.deserialize (c : ContainerStack) (d : FileData) : ContainerStack :=
  { c with name := d.name, metaType := d.metaType, metaPosition := d.metaPosition,
           containers := d.containers, payload := d.payload }

/-- `DefinitionContainer(container_id)` followed by `deserialize`. -/
def mkDefinition (cid : String) (d : FileData) : DefinitionContainer :=
  { id := cid, payload := d.payload }

/-- `InstanceContainer(container_id)`: fresh container before deserialize. -/
def mkInstance (cid : String) : InstanceContainer :=
  { id := cid, name := "", metaType := none, metaExtruder := none,
    metaMachine := none, payload := "" }

/-- `ContainerStack(container_id)`: fresh stack before deserialize. -/
def mkStack (cid : String) : ContainerStack :=
  { id := cid, name := "", metaType := none, metaPosition := none,
    containers := [], payload := "", nextStack := none }

/-! ### `_stripFileToId`

`file.replace("Cura/", "").split(".")[0]`: Python's `replace` removes every
non-overlapping occurrence of `"Cura/"` scanning left to right, and
`split(".")[0]` is the part before the first dot.  Embedded at the level of
character lists. -/

/-- Does the list start with the five characters `Cura/`? -/
def isCuraAt (l : List Char) : Bool :=
  decide (l.take 5 = ['C', 'u', 'r', 'a', '/'])

/-- Remove every (left-to-right, non-overlapping) occurrence of `"Cura/"`,
as Python's `str.replace("Cura/", "")` does. -/
def stripCuraList : List Char → List Char
  | 'C' :: 'u' :: 'r' :: 'a' :: '/' :: rest => stripCuraList rest
  | c :: rest => c :: stripCuraList rest
  | [] => []

/-- Does the list contain an occurrence of `"Cura/"`? -/
def containsCura : List Char → Bool
  | [] => false
  | c :: rest => isCuraAt (c :: rest) || containsCura rest

/-- `split(".")[0]`: the characters before the first `'.'`. -/
def beforeFirstDot (l : List Char) : List Char :=
  l.takeWhile (fun c => c ≠ '.')

/-- `ThreeMFWorkspaceReader._stripFileToId`:
`file.replace("Cura/", "").split(".")[0]`. -/
def stripFileToId (file : String) : String :=
  String.mk (beforeFirstDot (stripCuraList file.data))

/-- Python's `str.startswith`, on the underlying characters. -/
def pathStartsWith (p : String) (pre : String) : Bool :=
  pre.data.isPrefixOf p.data

/-- Python's `str.endswith`, on the underlying characters. -/
def pathEndsWith (p : String) (suf : String) : Bool :=
  suf.data.isSuffixOf p.data

/-! ### Entity Store query surface (`ContainerRegistry`)

`findDefinitionContainers(id=...)`, `findInstanceContainers(id=...)`,
`findContainerStacks(id=...)` and `addContainer`. -/

def findDefinitionContainers (s : Store) (cid : String) : List DefinitionContainer :=
  s.definitions.filter (fun c => c.id == cid)

def findInstanceContainers (s : Store) (cid : String) : List InstanceContainer :=
  s.instanceContainers.filter (fun c => c.id == cid)

def findContainerStacks (s : Store) (cid : String) : List ContainerStack :=
  s.containerStacks.filter (fun c => c.id == cid)

def addDefinitionContainer (s : Store) (c : DefinitionContainer) : Store :=
  { s with definitions := s.definitions ++ [c] }

def addInstanceContainer (s : Store) (c : InstanceContainer) : Store :=
  { s with instanceContainers := s.instanceContainers ++ [c] }

def addContainerStack (s : Store) (c : ContainerStack) : Store :=
  { s with containerStacks := s.containerStacks ++ [c] }

/-- In-place `user_containers[0].deserialize(...)`: mutate the first
instance container whose id matches, leaving the rest untouched. -/
def updateFirstInstanceList (l : List InstanceContainer) (cid : String) (d : FileData) :
    List InstanceContainer :=
  match l with
  | [] => []
  | c :: rest =>
    if c.id == cid then c.deserialize d :: rest
    else c :: updateFirstInstanceList rest cid d

def updateFirstInstance (s : Store) (cid : String) (d : FileData) : Store :=
  { s with instanceContainers := updateFirstInstanceList s.instanceContainers cid d }

/-- In-place `container_stacks[0].deserialize(...)`. -/
def updateFirstStackList (l : List ContainerStack) (cid : String) (d : FileData) :
    List ContainerStack :=
  match l with
  | [] => []
  | c :: rest =>
    if c.id == cid then c.deserialize d :: rest
    else c :: updateFirstStackList rest cid d

def updateFirstStack (s : Store) (cid : String) (d : FileData) : Store :=
  { s with containerStacks := updateFirstStackList s.containerStacks cid d }

/-- CPython aliasing: a stack object held in a local variable is the same
object as the registry entry with its id, so mutating it updates the
registry entry as well.  Replacing the first stack with the same id models
that shared mutation. -/
def replaceFirstStackById (l : List ContainerStack) (st : ContainerStack) : List ContainerStack :=
  match l with
  | [] => []
  | t :: rest => if t.id == st.id then st :: rest else t :: replaceFirstStackById rest st

def setFirstStackById (s : Store) (st : ContainerStack) : Store :=
  { s with containerStacks := replaceFirstStackById s.containerStacks st }

/-! ### Identity Allocator -/

/-- Every identity or display name currently in use in the Store. -/
def usedStrings (s : Store) : List String :=
  s.definitions.map (fun c => c.id)
    ++ s.instanceContainers.map (fun c => c.id)
    ++ s.instanceContainers.map (fun c => c.name)
    ++ s.containerStacks.map (fun c => c.id)
    ++ s.containerStacks.map (fun c => c.name)

/-- Length of the longest string in use. -/
def maxUsedLen (s : Store) : Nat :=
  (usedStrings s).foldr (fun u n => max u.length n) 0

/-- Modelled from the spec: `ContainerRegistry.uniqueName` is not part of
this repository; the spec specifies only its contract ("asks the Store for
a collision-free unique variant of `old`"; the result "does not currently
exist in the Store at call time").  The model appends a suffix strictly
longer than every identity and name in use, which realizes exactly that
contract. -/
def uniqueName (s : Store) (base : String) : String :=
  base ++ "_" ++ String.mk (List.replicate (maxUsedLen s + 1) 'x')

/-- The import-scoped identity map `self._id_mapping`. -/
abbrev IdMap : Type := List (String × String)

/-- `ThreeMFWorkspaceReader.getNewId`: memoized unique-variant lookup. -/
def getNewId (s : Store) (m : List (String × String)) (oldId : String) :
    String × List (String × String) :=
  match m.lookup oldId with
  | some v => (v, m)
  | none =>
    let fresh := uniqueName s oldId
    (fresh, (oldId, fresh) :: m)

/-! ### Suffixes and strategies

The container suffixes come from the framework's mime-type registry, which
is not part of this repository; the constants below are the deployed
values.  The resolve-strategy dictionary `self._resolve_strategies` is an
association list; `lookupStrategy` is Python's `dict[...]`, whose missing
key raises `KeyError`. -/

def definitionSuffix : String := "def.json"

def instanceSuffix : String := "inst.cfg"

def stackSuffix : String := "stack.cfg"

def materialSuffix : String := "xml.fdm_material"

inductive ReadError where
  | keyError (key : String)
  | attributeError
deriving DecidableEq, Repr

def lookupStrategy (strategies : List (String × String)) (domain : String) :
    Except ReadError String :=
  match strategies.lookup domain with
  | some v => .ok v
  | none => .error (.keyError domain)

/-! ### `preRead`: the Conflict Detector pre-pass

The scans thread the Store explicitly so that the frame property
("detection never mutates the Store") is a theorem about the embedding,
not a modelling assumption. -/

inductive PreReadResult where
  | accepted
  | cancelled
  | failed
deriving DecidableEq, Repr

/-- Lines 60-65: scan the stack files, break at the first conflict. -/
def scanStackConflicts (s : Store) : List ArchiveEntry → Bool × Store
  | [] => (false, s)
  | e :: rest =>
    let found := findContainerStacks s (stripFileToId e.path)
    if found.isEmpty then scanStackConflicts s rest else (true, s)

/-- Lines 68-81: deserialize each instance-container file transiently and
flag a conflict when a `quality_changes` container with the same id is
already registered (the loop keeps running after a hit). -/
def scanQualityChangesConflicts (s : Store) : List ArchiveEntry → Bool × Store
  | [] => (false, s)
  | e :: rest =>
    let cid := stripFileToId e.path
    let ic := (mkInstance cid).deserialize e.data
    if ic.metaType == some "quality_changes" then
      if (findInstanceContainers s cid).isEmpty then
        scanQualityChangesConflicts s rest
      else
        let r := scanQualityChangesConflicts s rest
        (true, r.2)
    else scanQualityChangesConflicts s rest

/-- Outcome of `preRead`: the exit signal, the Store after the pass, the
recorded resolve strategies, and whether the Resolution Prompt ran. -/
structure PreReadOutcome where
  result : PreReadResult
  store : Store
  strategies : List (String × String)
  dialogInvoked : Bool
deriving DecidableEq, Repr

/-- Lines 55-81 of `preRead`: the whole conflict-detection scan — stack
files first (break on first hit), then, only when no stack conflicted,
the quality-changes scan. -/
def conflictScan (s : Store) (archive : List ArchiveEntry) : Bool × Store :=
  let curaFiles := archive.filter (fun e => pathStartsWith e.path "Cura/")
  let scan1 := scanStackConflicts s (curaFiles.filter (fun e => pathEndsWith e.path stackSuffix))
  if scan1.1 then scan1
  else scanQualityChangesConflicts scan1.2
    (curaFiles.filter (fun e => pathEndsWith e.path instanceSuffix))

/-- `ThreeMFWorkspaceReader.preRead`.  `meshAccepted` is the external mesh
collaborator's verdict, `dialogResult` the external Resolution Prompt's
answer (read only when the dialog is shown), `prev` the value
`self._resolve_strategies` had before the call (it is only reassigned
when a conflict is found). -/
def preReadWorkspace (meshAccepted : Bool) (dialogResult : String)
    (prev : List (String × String)) (s : Store) (archive : List ArchiveEntry) :
    PreReadOutcome :=
  if !meshAccepted then
    { result := .failed, store := s, strategies := prev, dialogInvoked := false }
  else
    let scan := conflictScan s archive
    if scan.1 then
      if dialogResult == "cancel" then
        { result := .cancelled, store := scan.2, strategies := [], dialogInvoked := true }
      else
        { result := .accepted, store := scan.2,
          strategies := [("machine", dialogResult), ("quality_changes", dialogResult)],
          dialogInvoked := true }
    else
      { result := .accepted, store := scan.2, strategies := prev, dialogInvoked := false }

/-! ### `read`: the Merge Engine -/

/-- Lines 123-130: definitions pass, add-if-absent. -/
def readDefinitions (s : Store) : List ArchiveEntry → Store
  | [] => s
  | e :: rest =>
    let cid := stripFileToId e.path
    let s' :=
      if (findDefinitionContainers s cid).isEmpty then
        addDefinitionContainer s (mkDefinition cid e.data)
      else s
    readDefinitions s' rest

/-- Lines 138-145: materials pass, add-if-absent (materials live in the
registry as instance containers). -/
def readMaterials (s : Store) : List ArchiveEntry → Store
  | [] => s
  | e :: rest =>
    let cid := stripFileToId e.path
    let s' :=
      if (findInstanceContainers s cid).isEmpty then
        addInstanceContainer s ((mkInstance cid).deserialize e.data)
      else s
    readMaterials s' rest

/-- Lines 152-196: user and quality-changes profile pass.  Returns the
Store, the identity map and `quality_changes_instance_containers`. -/
def readInstances (strategies : List (String × String)) :
    Store → IdMap → List InstanceContainer → List ArchiveEntry →
    Except ReadError (Store × IdMap × List InstanceContainer)
  | s, m, qcs, [] => .ok (s, m, qcs)
  | s, m, qcs, e :: rest =>
    let cid := stripFileToId e.path
    let ic := (mkInstance cid).deserialize e.data
    if ic.metaType == some "user" then
      if (findInstanceContainers s cid).isEmpty then
        readInstances strategies (addInstanceContainer s ic) m qcs rest
      else
        match lookupStrategy strategies "machine" with
        | .error err => .error err
        | .ok strat =>
          if strat == "override" then
            readInstances strategies (updateFirstInstance s cid e.data) m qcs rest
          else if strat == "new" then
            match ic.metaExtruder with
            | some extruderId =>
              let alloc := getNewId s m extruderId
              let newId := alloc.1 ++ "_current_settings"
              readInstances strategies
                (addInstanceContainer s { ic with id := newId, name := newId })
                alloc.2 qcs rest
            | none =>
              match ic.metaMachine with
              | some machineId =>
                let alloc := getNewId s m machineId
                let newId := alloc.1 ++ "_current_settings"
                readInstances strategies
                  (addInstanceContainer s { ic with id := newId, name := newId })
                  alloc.2 qcs rest
              | none => readInstances strategies s m qcs rest
          else readInstances strategies s m qcs rest
    else if ic.metaType == some "quality_changes" then
      if (findInstanceContainers s cid).isEmpty then
        readInstances strategies (addInstanceContainer s ic) m (qcs ++ [ic]) rest
      else
        match lookupStrategy strategies "quality_changes" with
        | .error err => .error err
        | .ok strat =>
          let s' := if strat == "override" then updateFirstInstance s cid e.data else s
          readInstances strategies s' m (qcs ++ [ic]) rest
    else readInstances strategies s m qcs rest

/-- State of the main pass after the instance pass: Store, identity map,
`global_stack` and `extruder_stacks`. -/
structure MergeState where
  store : Store
  idMapping : IdMap
  globalStack : Option ContainerStack
  extruderStacks : List ContainerStack
deriving DecidableEq, Repr

/-- Lines 226-229: classify a processed stack by its `type` metadata. -/
def classifyStack (ms : MergeState) (stack : ContainerStack) : MergeState :=
  if stack.metaType == some "extruder_train" then
    { ms with extruderStacks := ms.extruderStacks ++ [stack] }
  else { ms with globalStack := some stack }

/-- Lines 203-229: stacks pass. -/
def readStacks (strategies : List (String × String)) :
    MergeState → List ArchiveEntry → Except ReadError MergeState
  | ms, [] => .ok ms
  | ms, e :: rest =>
    let cid := stripFileToId e.path
    match findContainerStacks ms.store cid with
    | stack0 :: _ =>
      match lookupStrategy strategies "machine" with
      | .error err => .error err
      | .ok strat =>
        if strat == "override" then
          let stack := stack0.deserialize e.data
          let s' := updateFirstStack ms.store cid e.data
          readStacks strategies (classifyStack { ms with store := s' } stack) rest
        else
          let alloc := getNewId ms.store ms.idMapping cid
          let stack := { (mkStack alloc.1).deserialize e.data with id := alloc.1 }
          let stack := { stack with name := uniqueName ms.store stack.name }
          let s' := addContainerStack ms.store stack
          readStacks strategies
            (classifyStack { ms with store := s', idMapping := alloc.2 } stack) rest
    | [] =>
      let stack := (mkStack cid).deserialize e.data
      let s' := addContainerStack ms.store stack
      readStacks strategies (classifyStack { ms with store := s' } stack) rest

/-- `stack.findContainer({"type": "quality_changes"})`. -/
def findQcRef (st : ContainerStack) : Option ContainerRef :=
  st.containers.find? (fun r => r.refType == some "quality_changes")

/-- `stack.getContainerIndex(old_container)` for the container returned by
`findQcRef`: the index of the first quality-changes reference. -/
def qcRefIndex (st : ContainerStack) : Nat :=
  st.containers.findIdx (fun r => r.refType == some "quality_changes")

/-- `stack.replaceContainer(index, container)`. -/
def stackReplaceAt (st : ContainerStack) (i : Nat) (r : ContainerRef) : ContainerStack :=
  { st with containers := st.containers.set i r }

/-- The reference a stack holds after `replaceContainer(..., container)`. -/
def refOfInstance (c : InstanceContainer) : ContainerRef :=
  { refId := c.id, refType := c.metaType }

/-- The id of the quality-changes container a stack currently references. -/
def stackQcId (st : ContainerStack) : Option String :=
  (findQcRef st).map (fun r => r.refId)

/-- Lines 249-253: walk `extruder_stacks`, replacing the quality-changes
reference of every extruder stack whose referenced id equals `oldId`
(and, via aliasing, the registry's copy of that stack).  A stack without a
quality-changes container raises `AttributeError`
(`old_container.getId()` on `None`). -/
def replaceQcInExtruders (oldId : String) (r : ContainerRef) (s : Store) :
    List ContainerStack → Except ReadError (Store × List ContainerStack)
  | [] => .ok (s, [])
  | st :: rest =>
    match findQcRef st with
    | none => .error .attributeError
    | some oldRef =>
      if oldRef.refId == oldId then
        let st' := stackReplaceAt st (qcRefIndex st) r
        match replaceQcInExtruders oldId r (setFirstStackById s st') rest with
        | .ok (s', rest') => .ok (s', st' :: rest')
        | .error err => .error err
      else
        match replaceQcInExtruders oldId r s rest with
        | .ok (s', rest') => .ok (s', st :: rest')
        | .error err => .error err

/-- Lines 233-253, one iteration: rename the deferred container, allocate
its new identity, add it, then patch the global stack's quality-changes
reference — `continue`-ing (and so skipping the extruder stacks) whenever
the global stack's reference matched — otherwise patch the extruder
stacks. -/
def applyQcNewOne (ms : MergeState) (c : InstanceContainer) : Except ReadError MergeState :=
  let s := ms.store
  let oldId := c.id
  let c1 := { c with name := uniqueName s c.name }
  let alloc := getNewId s ms.idMapping oldId
  let c2 := { c1 with id := alloc.1 }
  let s1 := addInstanceContainer s c2
  match ms.globalStack with
  | none => .error .attributeError
  | some gs =>
    match findQcRef gs with
    | none => .error .attributeError
    | some oldRef =>
      if oldRef.refId == oldId then
        let gs' := stackReplaceAt gs (qcRefIndex gs) (refOfInstance c2)
        .ok { store := setFirstStackById s1 gs', idMapping := alloc.2,
              globalStack := some gs', extruderStacks := ms.extruderStacks }
      else
        match replaceQcInExtruders oldId (refOfInstance c2) s1 ms.extruderStacks with
        | .ok (s2, exts') =>
          .ok { store := s2, idMapping := alloc.2, globalStack := some gs,
                extruderStacks := exts' }
        | .error err => .error err

/-- Lines 231-253: the deferred quality-changes phase under strategy
`new`. -/
def applyQcNew (ms : MergeState) : List InstanceContainer → Except ReadError MergeState
  | [] => .ok ms
  | c :: rest =>
    match applyQcNewOne ms c with
    | .ok ms' => applyQcNew ms' rest
    | .error err => .error err

/-- Lines 255-269: Reference Repair.  Register each extruder stack under
the machine stack (external `ExtruderManager` state, no Store effect) and
set its `next` link; the aliasing sync writes the mutated stack back into
the registry. -/
def setNextStacks (gs : ContainerStack) (s : Store) :
    List ContainerStack → Store × List ContainerStack
  | [] => (s, [])
  | st :: rest =>
    let st' := { st with nextStack := some gs.id }
    let r := setNextStacks gs (setFirstStackById s st') rest
    (r.1, st' :: r.2)

/-- Result of a successful `read`. -/
structure ReadOutcome where
  store : Store
  idMapping : IdMap
  globalStack : ContainerStack
  extruderStacks : List ContainerStack
deriving DecidableEq, Repr

/-- `ThreeMFWorkspaceReader.read` (the Store-relevant part; the mesh nodes
and the preferences side-channel touch only external collaborators).
`xmlProfileRegistered` tells whether the registry knows the
`XmlMaterialProfile` container type (line 137's guard).  Note line 231:
`self._resolve_strategies["quality_changes"]` is looked up
unconditionally, so a missing strategy raises `KeyError` here even when
no conflicting entity was ever touched.  A missing global stack raises
`AttributeError` in the repair phase (lines 243, 256 and 263 all call
methods on `global_stack`). -/
def readWorkspace (strategies : List (String × String)) (xmlProfileRegistered : Bool)
    (s : Store) (archive : List ArchiveEntry) : Except ReadError ReadOutcome :=
  let curaFiles := archive.filter (fun e => pathStartsWith e.path "Cura/")
  let s1 := readDefinitions s (curaFiles.filter (fun e => pathEndsWith e.path definitionSuffix))
  let s2 :=
    if xmlProfileRegistered then
      readMaterials s1 (curaFiles.filter (fun e => pathEndsWith e.path materialSuffix))
    else s1
  match readInstances strategies s2 [] []
      (curaFiles.filter (fun e => pathEndsWith e.path instanceSuffix)) with
  | .error err => .error err
  | .ok (s3, m, qcs) =>
    match readStacks strategies
        { store := s3, idMapping := m, globalStack := none, extruderStacks := [] }
        (curaFiles.filter (fun e => pathEndsWith e.path stackSuffix)) with
    | .error err => .error err
    | .ok ms =>
      match lookupStrategy strategies "quality_changes" with
      | .error err => .error err
      | .ok qcStrat =>
        match (if qcStrat == "new" then applyQcNew ms qcs else .ok ms) with
        | .error err => .error err
        | .ok ms' =>
          match ms'.globalStack with
          | none => .error .attributeError
          | some gs =>
            let repaired := setNextStacks gs ms'.store ms'.extruderStacks
            .ok { store := repaired.1, idMapping := ms'.idMapping,
                  globalStack := gs, extruderStacks := repaired.2 }

/-! ### The whole import: `preRead` then `read` -/

inductive ImportResult where
  | accepted (outcome : ReadOutcome)
  | cancelled (store : Store)
  | failed (store : Store)
  | errored (e : ReadError)
deriving DecidableEq, Repr

/-- The framework's workflow: `preRead`, then — only on `accepted` —
`read` with the strategies the pre-pass recorded. -/
def importWorkspace (meshAccepted : Bool) (dialogResult : String)
    (prev : List (String × String)) (xmlProfileRegistered : Bool)
    (s : Store) (archive : List ArchiveEntry) : ImportResult :=
  let p := preReadWorkspace meshAccepted dialogResult prev s archive
  match p.result with
  | .failed => .failed p.store
  | .cancelled => .cancelled p.store
  | .accepted =>
    match readWorkspace p.strategies xmlProfileRegistered p.store archive with
    | .ok outcome => .accepted outcome
    | .error err => .errored err

/-! ### Derived observations and concrete fixtures -/

/-- Is an identity currently present in the Store (in any class)? -/
def storeHasId (s : Store) (i : String) : Bool :=
  s.definitions.any (fun c => c.id == i)
    || s.instanceContainers.any (fun c => c.id == i)
    || s.containerStacks.any (fun c => c.id == i)

/-- The strategy dictionary recorded when the user answers `override`. -/
def overrideStrategies : List (String × String) :=
  [("machine", "override"), ("quality_changes", "override")]

def emptyStore : Store :=
  { definitions := [], instanceContainers := [], containerStacks := [] }

/-- A well-formed machine-stack archive entry with identity `printer`. -/
def printerStackEntry : ArchiveEntry :=
  { path := "Cura/printer.stack.cfg",
    data := { name := "Printer", metaType := none, metaExtruder := none,
              metaMachine := none, metaPosition := none, containers := [],
              payload := "payload-from-archive" } }

/-- A pre-existing machine stack with the same identity `printer`. -/
def printerStack : ContainerStack :=
  { id := "printer", name := "Printer", metaType := none, metaPosition := none,
    containers := [], payload := "old-payload", nextStack := none }

/-- A Store already holding the `printer` stack (a conflicting import). -/
def printerStore : Store :=
  { definitions := [], instanceContainers := [], containerStacks := [printerStack] }

/-- A definition-container archive entry with identity `newdef`. -/
def newdefEntry : ArchiveEntry :=
  { path := "Cura/newdef.def.json",
    data := { name := "", metaType := none, metaExtruder := none,
              metaMachine := none, metaPosition := none, containers := [],
              payload := "defbody" } }

/-- C2 scenario (spec scenario 9): quality-changes profile `fast_print`
referenced by both the machine stack and an extruder stack. -/
def c2Global : ContainerStack :=
  { id := "gmachine", name := "G", metaType := none, metaPosition := none,
    containers := [{ refId := "fast_print", refType := some "quality_changes" }],
    payload := "p", nextStack := none }

def c2Ext : ContainerStack :=
  { id := "ext1", name := "E", metaType := some "extruder_train",
    metaPosition := some "0",
    containers := [{ refId := "fast_print", refType := some "quality_changes" }],
    payload := "q", nextStack := none }

def c2QcOld : InstanceContainer :=
  { id := "fast_print", name := "Fast", metaType := some "quality_changes",
    metaExtruder := none, metaMachine := none, payload := "old" }

def c2Store : Store :=
  { definitions := [], instanceContainers := [c2QcOld],
    containerStacks := [c2Global, c2Ext] }

/-- The deferred (transient) quality-changes container from the archive. -/
def c2Qc : InstanceContainer :=
  { id := "fast_print", name := "Fast", metaType := some "quality_changes",
    metaExtruder := none, metaMachine := none, payload := "newpayload" }

def c2State : MergeState :=
  { store := c2Store, idMapping := [], globalStack := some c2Global,
    extruderStacks := [c2Ext] }

/-- The outcome of importing `printerStackEntry` into `printerStore` under
strategy `override`: the existing stack keeps its identity, its payload is
replaced from the archive. -/
def w6Out : ReadOutcome :=
  { store := { definitions := [], instanceContainers := [],
               containerStacks := [{ id := "printer", name := "Printer",
                                     metaType := none, metaPosition := none,
                                     containers := [],
                                     payload := "payload-from-archive",
                                     nextStack := none }] },
    idMapping := [],
    globalStack := { id := "printer", name := "Printer", metaType := none,
                     metaPosition := none, containers := [],
                     payload := "payload-from-archive", nextStack := none },
    extruderStacks := [] }

/-! ## Theorems

First the helper lemmas about the conflict scans, then the claims. -/

theorem scanStackConflicts_store (s : Store) (l : List ArchiveEntry) :
    (scanStackConflicts s l).2 = s := by
  induction l with
  | nil => rfl
  | cons e rest ih =>
    simp only [scanStackConflicts]
    split
    · exact ih
    · rfl

theorem scanQualityChangesConflicts_store (s : Store) (l : List ArchiveEntry) :
    (scanQualityChangesConflicts s l).2 = s := by
  induction l with
  | nil => rfl
  | cons e rest ih =>
    simp only [scanQualityChangesConflicts]
    split
    · split
      · exact ih
      · exact ih
    · exact ih

theorem conflictScan_store (s : Store) (archive : List ArchiveEntry) :
    (conflictScan s archive).2 = s := by
  simp only [conflictScan]
  split
  · exact scanStackConflicts_store s _
  · rw [scanStackConflicts_store s _]
    exact scanQualityChangesConflicts_store s _

/-- C4: for every archive and every Entity Store state, the conflict
pre-pass of `preRead` leaves the Entity Store unchanged — no entity is
added, removed or mutated by conflict detection. -/
theorem C4_conflict_scan_no_mutation (meshAccepted : Bool) (dialogResult : String)
    (prev : List (String × String)) (s : Store) (archive : List ArchiveEntry) :
    (preReadWorkspace meshAccepted dialogResult prev s archive).store = s := by
  simp only [preReadWorkspace]
  split
  · rfl
  · split
    · split
      · exact conflictScan_store s archive
      · exact conflictScan_store s archive
    · exact conflictScan_store s archive

/-- C10: whenever a conflict is detected and the prompt returns a
non-cancel result, the recorded Resolve Strategy Set maps both domains
(`machine` and `quality_changes`) to the one identical strategy token. -/
theorem C10_strategies_uniform (d : String) (prev : List (String × String))
    (s : Store) (archive : List ArchiveEntry)
    (hd : (preReadWorkspace true d prev s archive).dialogInvoked = true)
    (hc : d ≠ "cancel") :
    (preReadWorkspace true d prev s archive).strategies
      = [("machine", d), ("quality_changes", d)] := by
  have hcb : (d == "cancel") = false := beq_eq_false_iff_ne.mpr hc
  by_cases h : (conflictScan s archive).1
  · simp [preReadWorkspace, h, hcb]
  · exfalso
    simp [preReadWorkspace, h] at hd

/-- C10 witness: a concrete conflicting import answered `new` records the
same token for both domains. -/
theorem C10_witness :
    (preReadWorkspace true "new" [] printerStore [printerStackEntry]).strategies
      = [("machine", "new"), ("quality_changes", "new")] :=
  C10_strategies_uniform "new" [] printerStore [printerStackEntry] (by decide) (by decide)

/-- C5: if the Resolution Prompt returns `cancel`, the whole import is
aborted with result `Cancelled` and the Entity Store has undergone zero
mutation. -/
theorem C5_cancel_aborts_unchanged (prev : List (String × String)) (xmlOk : Bool)
    (s : Store) (archive : List ArchiveEntry)
    (hd : (preReadWorkspace true "cancel" prev s archive).dialogInvoked = true) :
    importWorkspace true "cancel" prev xmlOk s archive = .cancelled s := by
  by_cases h : (conflictScan s archive).1
  · simp [importWorkspace, preReadWorkspace, h, conflictScan_store]
  · exfalso
    simp [preReadWorkspace, h] at hd

/-- C5 witness: cancelling a concrete conflicting import returns
`Cancelled` with the Store exactly as it was. -/
theorem C5_witness :
    importWorkspace true "cancel" [] true printerStore [printerStackEntry]
      = .cancelled printerStore :=
  C5_cancel_aborts_unchanged [] true printerStore [printerStackEntry] (by decide)

theorem scanStackConflicts_no_hit (s : Store) (l : List ArchiveEntry)
    (h : ∀ e ∈ l, findContainerStacks s (stripFileToId e.path) = []) :
    (scanStackConflicts s l).1 = false := by
  induction l with
  | nil => rfl
  | cons e rest ih =>
    have he : findContainerStacks s (stripFileToId e.path) = [] :=
      h e (List.mem_cons_self e rest)
    simp only [scanStackConflicts, he]
    simp only [List.isEmpty_nil, if_true]
    exact ih (fun x hx => h x (List.mem_cons_of_mem e hx))

theorem scanQualityChangesConflicts_no_hit (s : Store) (l : List ArchiveEntry)
    (h : ∀ e ∈ l, e.data.metaType = some "quality_changes" →
      findInstanceContainers s (stripFileToId e.path) = []) :
    (scanQualityChangesConflicts s l).1 = false := by
  induction l with
  | nil => rfl
  | cons e rest ih =>
    have ihr : (scanQualityChangesConflicts s rest).1 = false :=
      ih (fun x hx hq => h x (List.mem_cons_of_mem e hx) hq)
    by_cases hq : e.data.metaType = some "quality_changes"
    · have he : findInstanceContainers s (stripFileToId e.path) = [] :=
        h e (List.mem_cons_self e rest) hq
      simp only [scanQualityChangesConflicts, InstanceContainer.deserialize, mkInstance, hq, he]
      simpa using ihr
    · simp only [scanQualityChangesConflicts, InstanceContainer.deserialize, mkInstance]
      have hqb : (e.data.metaType == some "quality_changes") = false :=
        beq_eq_false_iff_ne.mpr hq
      simpa [hqb] using ihr

/-- C8: if no Stack identity and no quality-changes Profile identity from
the archive exists in the Store, the Resolution Prompt is never invoked
during the import. -/
theorem C8_no_conflict_no_prompt (meshAccepted : Bool) (dialogResult : String)
    (prev : List (String × String)) (s : Store) (archive : List ArchiveEntry)
    (h1 : ∀ e ∈ archive, pathStartsWith e.path "Cura/" = true →
      pathEndsWith e.path stackSuffix = true →
      findContainerStacks s (stripFileToId e.path) = [])
    (h2 : ∀ e ∈ archive, pathStartsWith e.path "Cura/" = true →
      pathEndsWith e.path instanceSuffix = true →
      e.data.metaType = some "quality_changes" →
      findInstanceContainers s (stripFileToId e.path) = []) :
    (preReadWorkspace meshAccepted dialogResult prev s archive).dialogInvoked = false := by
  cases meshAccepted with
  | false => rfl
  | true =>
    have hscan : (conflictScan s archive).1 = false := by
      simp only [conflictScan]
      have hs1 : (scanStackConflicts s
          ((archive.filter (fun e => pathStartsWith e.path "Cura/")).filter
            (fun e => pathEndsWith e.path stackSuffix))).1 = false := by
        apply scanStackConflicts_no_hit
        intro e he
        obtain ⟨he1, he2⟩ := List.mem_filter.mp he
        obtain ⟨he0, he3⟩ := List.mem_filter.mp he1
        exact h1 e he0 he3 he2
      rw [if_neg (by rw [hs1]; simp)]
      rw [scanStackConflicts_store]
      apply scanQualityChangesConflicts_no_hit
      intro e he hq
      obtain ⟨he1, he2⟩ := List.mem_filter.mp he
      obtain ⟨he0, he3⟩ := List.mem_filter.mp he1
      exact h2 e he0 he3 he2 hq
    simp [preReadWorkspace, hscan]

/-- C8 witness: importing a stack whose identity is absent from an empty
Store never shows the dialog. -/
theorem C8_witness :
    (preReadWorkspace true "x" [] emptyStore [printerStackEntry]).dialogInvoked = false :=
  C8_no_conflict_no_prompt true "x" [] emptyStore [printerStackEntry]
    (by decide) (by decide)

/-- C1 (code bug): with no recorded strategy decision — the state `read`
runs in whenever `preRead` detected no conflict — the unconditional lookup
`self._resolve_strategies["quality_changes"]` on line 231 raises
`KeyError` and the import fails, instead of completing with the
add-if-absent default the spec describes. -/
theorem C1_missing_strategy_raises_keyerror :
    importWorkspace true "override" [] true emptyStore [printerStackEntry]
      = .errored (.keyError "quality_changes") := by decide

theorem foldr_max_len_le (l : List String) (u : String) (hu : u ∈ l) :
    u.length ≤ l.foldr (fun v n => max v.length n) 0 := by
  induction l with
  | nil => cases hu
  | cons a t ih =>
    rcases List.mem_cons.mp hu with rfl | h
    · exact le_max_left _ _
    · exact le_trans (ih h) (le_max_right _ _)

theorem uniqueName_ne_used (s : Store) (base u : String) (hu : u ∈ usedStrings s) :
    u ≠ uniqueName s base := by
  intro heq
  have hlen : u.length ≤ maxUsedLen s := foldr_max_len_le (usedStrings s) u hu
  have hfresh : (uniqueName s base).length
      = base.length + 1 + (maxUsedLen s + 1) := by
    simp [uniqueName, String.length_append]
    rfl
  rw [heq, hfresh] at hlen
  omega

theorem storeHasId_mem_used (s : Store) (i : String) (h : storeHasId s i = true) :
    i ∈ usedStrings s := by
  simp only [storeHasId, Bool.or_eq_true, List.any_eq_true, beq_iff_eq] at h
  simp only [usedStrings, List.mem_append, List.mem_map]
  rcases h with (⟨c, hc, hid⟩ | ⟨c, hc, hid⟩) | ⟨c, hc, hid⟩
  · exact Or.inl (Or.inl (Or.inl (Or.inl ⟨c, hc, hid⟩)))
  · exact Or.inl (Or.inl (Or.inl (Or.inr ⟨c, hc, hid⟩)))
  · exact Or.inl (Or.inr ⟨c, hc, hid⟩)

theorem uniqueName_not_in_store (s : Store) (base : String) :
    storeHasId s (uniqueName s base) = false := by
  cases h : storeHasId s (uniqueName s base) with
  | false => rfl
  | true => exact absurd rfl (uniqueName_ne_used s base _ (storeHasId_mem_used s _ h))

/-- C3: within one import, two calls to the Identity Allocator with the
same identity `x` return the same identity (the second call hits the
memo regardless of the Store it sees), and the first call for `x` returns
an identity that does not currently exist in the Store at call time. -/
theorem C3_allocator_idempotent_and_fresh (s1 s2 : Store) (m : List (String × String))
    (x : String) :
    (getNewId s2 (getNewId s1 m x).2 x).1 = (getNewId s1 m x).1
    ∧ (m.lookup x = none → storeHasId s1 (getNewId s1 m x).1 = false) := by
  constructor
  · cases h : m.lookup x with
    | some v => simp [getNewId, h]
    | none => simp [getNewId, h, List.lookup]
  · intro h
    simp only [getNewId, h]
    exact uniqueName_not_in_store s1 x

/-- C3 witness: concrete allocation from the empty Store. -/
theorem C3_witness :
    (getNewId emptyStore (getNewId emptyStore [] "ab").2 "ab").1
        = (getNewId emptyStore [] "ab").1
    ∧ storeHasId emptyStore (getNewId emptyStore [] "ab").1 = false :=
  ⟨(C3_allocator_idempotent_and_fresh emptyStore emptyStore [] "ab").1,
   (C3_allocator_idempotent_and_fresh emptyStore emptyStore [] "ab").2 (by decide)⟩

/-- C9 counterexample: the claim says the extracted identity is the path
with the fixed prefix removed and the suffix dropped, nothing else
altered.  On `"Cura/my.profile.inst.cfg"` (identity `my.profile`, suffix
`inst.cfg`) the code yields `"my"`, truncating at the first dot; on
`"Cura/ACura/file.inst.cfg"` the inner occurrence of `"Cura/"` is removed
as well, yielding `"Afile"` instead of `"ACura/file"`. -/
theorem C9_counterexample :
    stripFileToId "Cura/my.profile.inst.cfg" = "my"
    ∧ stripFileToId "Cura/my.profile.inst.cfg" ≠ "my.profile"
    ∧ stripFileToId "Cura/ACura/file.inst.cfg" = "Afile"
    ∧ stripFileToId "Cura/ACura/file.inst.cfg" ≠ "ACura/file" := by decide

theorem stripCuraList_cons_not_cura (c : Char) (t : List Char)
    (h : isCuraAt (c :: t) = false) :
    stripCuraList (c :: t) = c :: stripCuraList t := by
  rw [stripCuraList.eq_def]
  split
  all_goals simp_all [isCuraAt]

theorem stripCuraList_no_occur_append_dot (l m : List Char)
    (h1 : containsCura l = false) (h2 : ∀ c ∈ l, c ≠ '.') :
    stripCuraList (l ++ '.' :: m) = l ++ '.' :: stripCuraList m := by
  induction l with
  | nil =>
    simp only [List.nil_append]
    exact stripCuraList_cons_not_cura '.' m (by simp [isCuraAt])
  | cons c t ih =>
    have hoc : isCuraAt (c :: t) = false ∧ containsCura t = false := by
      simpa [containsCura, Bool.or_eq_false_iff] using h1
    have hcan : isCuraAt (c :: (t ++ '.' :: m)) = false := by
      rcases t with _ | ⟨a, _ | ⟨b, _ | ⟨d, _ | ⟨e, t4⟩⟩⟩⟩ <;>
        simp_all [isCuraAt]
    rw [List.cons_append, stripCuraList_cons_not_cura _ _ hcan,
        ih hoc.2 (fun x hx => h2 x (List.mem_cons_of_mem c hx))]
    rfl

theorem takeWhile_no_dot_append (l r : List Char) (h : ∀ c ∈ l, c ≠ '.') :
    (l ++ '.' :: r).takeWhile (fun c => c ≠ '.') = l := by
  induction l with
  | nil => simp [List.takeWhile]
  | cons c t ih =>
    have hc : c ≠ '.' := h c (List.mem_cons_self c t)
    simp only [List.cons_append, List.takeWhile_cons]
    rw [if_pos (by simpa using hc), ih (fun x hx => h x (List.mem_cons_of_mem c hx))]

/-- C9 (amended): the extracted identity is the path with every occurrence
of `"Cura/"` removed (not only the leading prefix) and truncated at the
first remaining dot.  In particular, for a well-formed path
`"Cura/" ++ id ++ "." ++ suffix` whose identity contains no dot and no
occurrence of `"Cura/"`, the identity is extracted intact. -/
theorem C9_amended_extraction (idc suffix : List Char)
    (h1 : containsCura idc = false) (h2 : ∀ c ∈ idc, c ≠ '.') :
    stripFileToId (String.mk ('C' :: 'u' :: 'r' :: 'a' :: '/' :: (idc ++ '.' :: suffix)))
      = String.mk idc := by
  simp only [stripFileToId]
  rw [show stripCuraList ('C' :: 'u' :: 'r' :: 'a' :: '/' :: (idc ++ '.' :: suffix))
      = stripCuraList (idc ++ '.' :: suffix) from rfl]
  rw [stripCuraList_no_occur_append_dot idc suffix h1 h2]
  simp only [beforeFirstDot]
  rw [takeWhile_no_dot_append idc (stripCuraList suffix) h2]

/-- C9 witness: the identity `my` is extracted intact from
`Cura/my.inst.cfg`. -/
theorem C9_witness :
    stripFileToId (String.mk ('C' :: 'u' :: 'r' :: 'a' :: '/'
        :: (['m', 'y'] ++ '.' :: "inst.cfg".data))) = String.mk ['m', 'y'] :=
  C9_amended_extraction ['m', 'y'] "inst.cfg".data (by decide) (by decide)

theorem readDefinitions_cons (s : Store) (e : ArchiveEntry) (rest : List ArchiveEntry) :
    readDefinitions s (e :: rest)
      = readDefinitions
          (if (findDefinitionContainers s (stripFileToId e.path)).isEmpty
           then addDefinitionContainer s (mkDefinition (stripFileToId e.path) e.data)
           else s) rest := rfl

theorem findDefinitionContainers_add (s : Store) (d : DefinitionContainer) (i : String) :
    findDefinitionContainers (addDefinitionContainer s d) i
      = findDefinitionContainers s i ++ List.filter (fun c => c.id == i) [d] := by
  simp [findDefinitionContainers, addDefinitionContainer, List.filter_append]

theorem readDefinitions_spec (files : List ArchiveEntry) (s : Store) :
    ∃ added,
      (readDefinitions s files).definitions = s.definitions ++ added
      ∧ (∀ c ∈ added, findDefinitionContainers s c.id = [])
      ∧ (readDefinitions s files).instanceContainers = s.instanceContainers
      ∧ (readDefinitions s files).containerStacks = s.containerStacks := by
  induction files generalizing s with
  | nil => exact ⟨[], by simp [readDefinitions], by simp, rfl, rfl⟩
  | cons e rest ih =>
    rw [readDefinitions_cons]
    by_cases h : (findDefinitionContainers s (stripFileToId e.path)).isEmpty
    · rw [if_pos h]
      obtain ⟨added, hdefs, habs, hinst, hstk⟩ :=
        ih (addDefinitionContainer s (mkDefinition (stripFileToId e.path) e.data))
      refine ⟨mkDefinition (stripFileToId e.path) e.data :: added, ?_, ?_, ?_, ?_⟩
      · rw [hdefs]
        simp [addDefinitionContainer]
      · intro c hc
        rcases List.mem_cons.mp hc with rfl | hmem
        · simpa [List.isEmpty_iff] using h
        · have hc2 := habs c hmem
          rw [findDefinitionContainers_add] at hc2
          exact (List.append_eq_nil.mp hc2).1
      · rw [hinst]; rfl
      · rw [hstk]; rfl
    · rw [if_neg h]
      exact ih s

theorem readDefinitions_mono (files : List ArchiveEntry) (s : Store) (i : String)
    (h : findDefinitionContainers s i ≠ []) :
    findDefinitionContainers (readDefinitions s files) i ≠ [] := by
  obtain ⟨added, hdefs, -, -, -⟩ := readDefinitions_spec files s
  simp only [findDefinitionContainers] at *
  rw [hdefs, List.filter_append]
  intro hnil
  exact h (List.append_eq_nil.mp hnil).1

theorem readDefinitions_adds (files : List ArchiveEntry) (s : Store) (e : ArchiveEntry)
    (he : e ∈ files)
    (habs : findDefinitionContainers s (stripFileToId e.path) = []) :
    findDefinitionContainers (readDefinitions s files) (stripFileToId e.path) ≠ [] := by
  induction files generalizing s with
  | nil => cases he
  | cons f rest ih =>
    rw [readDefinitions_cons]
    rcases List.mem_cons.mp he with rfl | hmem
    · rw [if_pos (by simp [habs])]
      apply readDefinitions_mono
      rw [findDefinitionContainers_add]
      simp [mkDefinition]
    · by_cases h2 : findDefinitionContainers
          (if (findDefinitionContainers s (stripFileToId f.path)).isEmpty
           then addDefinitionContainer s (mkDefinition (stripFileToId f.path) f.data)
           else s) (stripFileToId e.path) = []
      · exact ih _ hmem h2
      · exact readDefinitions_mono rest _ _ h2

theorem readMaterials_cons (s : Store) (e : ArchiveEntry) (rest : List ArchiveEntry) :
    readMaterials s (e :: rest)
      = readMaterials
          (if (findInstanceContainers s (stripFileToId e.path)).isEmpty
           then addInstanceContainer s ((mkInstance (stripFileToId e.path)).deserialize e.data)
           else s) rest := rfl

theorem findInstanceContainers_add (s : Store) (c : InstanceContainer) (i : String) :
    findInstanceContainers (addInstanceContainer s c) i
      = findInstanceContainers s i ++ List.filter (fun x => x.id == i) [c] := by
  simp [findInstanceContainers, addInstanceContainer, List.filter_append]

theorem readMaterials_spec (files : List ArchiveEntry) (s : Store) :
    ∃ added,
      (readMaterials s files).instanceContainers = s.instanceContainers ++ added
      ∧ (∀ c ∈ added, findInstanceContainers s c.id = [])
      ∧ (readMaterials s files).definitions = s.definitions
      ∧ (readMaterials s files).containerStacks = s.containerStacks := by
  induction files generalizing s with
  | nil => exact ⟨[], by simp [readMaterials], by simp, rfl, rfl⟩
  | cons e rest ih =>
    rw [readMaterials_cons]
    by_cases h : (findInstanceContainers s (stripFileToId e.path)).isEmpty
    · rw [if_pos h]
      obtain ⟨added, hinst, habs, hdefs, hstk⟩ :=
        ih (addInstanceContainer s ((mkInstance (stripFileToId e.path)).deserialize e.data))
      refine ⟨(mkInstance (stripFileToId e.path)).deserialize e.data :: added, ?_, ?_, ?_, ?_⟩
      · rw [hinst]
        simp [addInstanceContainer]
      · intro c hc
        rcases List.mem_cons.mp hc with rfl | hmem
        · simpa [List.isEmpty_iff, InstanceContainer.deserialize, mkInstance] using h
        · have hc2 := habs c hmem
          rw [findInstanceContainers_add] at hc2
          exact (List.append_eq_nil.mp hc2).1
      · rw [hdefs]; rfl
      · rw [hstk]; rfl
    · rw [if_neg h]
      exact ih s

theorem readMaterials_mono (files : List ArchiveEntry) (s : Store) (i : String)
    (h : findInstanceContainers s i ≠ []) :
    findInstanceContainers (readMaterials s files) i ≠ [] := by
  obtain ⟨added, hinst, -, -, -⟩ := readMaterials_spec files s
  simp only [findInstanceContainers] at *
  rw [hinst, List.filter_append]
  intro hnil
  exact h (List.append_eq_nil.mp hnil).1

theorem readMaterials_adds (files : List ArchiveEntry) (s : Store) (e : ArchiveEntry)
    (he : e ∈ files)
    (habs : findInstanceContainers s (stripFileToId e.path) = []) :
    findInstanceContainers (readMaterials s files) (stripFileToId e.path) ≠ [] := by
  induction files generalizing s with
  | nil => cases he
  | cons f rest ih =>
    rw [readMaterials_cons]
    rcases List.mem_cons.mp he with rfl | hmem
    · rw [if_pos (by simp [habs])]
      apply readMaterials_mono
      rw [findInstanceContainers_add]
      simp [mkInstance, InstanceContainer.deserialize]
    · by_cases h2 : findInstanceContainers
          (if (findInstanceContainers s (stripFileToId f.path)).isEmpty
           then addInstanceContainer s ((mkInstance (stripFileToId f.path)).deserialize f.data)
           else s) (stripFileToId e.path) = []
      · exact ih _ hmem h2
      · exact readMaterials_mono rest _ _ h2

theorem readDefinitions_present_untouched (files : List ArchiveEntry) (s : Store) (i : String)
    (h : findDefinitionContainers s i ≠ []) :
    findDefinitionContainers (readDefinitions s files) i = findDefinitionContainers s i := by
  obtain ⟨added, hdefs, habs, -, -⟩ := readDefinitions_spec files s
  simp only [findDefinitionContainers] at h habs ⊢
  rw [hdefs, List.filter_append]
  have hnil : added.filter (fun c => c.id == i) = [] := by
    rw [List.filter_eq_nil_iff]
    intro a ha hbeq
    have hid : a.id = i := by simpa using hbeq
    have h2 := habs a ha
    rw [hid] at h2
    exact h h2
  rw [hnil, List.append_nil]

theorem readMaterials_present_untouched (files : List ArchiveEntry) (s : Store) (i : String)
    (h : findInstanceContainers s i ≠ []) :
    findInstanceContainers (readMaterials s files) i = findInstanceContainers s i := by
  obtain ⟨added, hinst, habs, -, -⟩ := readMaterials_spec files s
  simp only [findInstanceContainers] at h habs ⊢
  rw [hinst, List.filter_append]
  have hnil : added.filter (fun c => c.id == i) = [] := by
    rw [List.filter_eq_nil_iff]
    intro a ha hbeq
    have hid : a.id = i := by simpa using hbeq
    have h2 := habs a ha
    rw [hid] at h2
    exact h h2
  rw [hnil, List.append_nil]

/-- C7: definitions and materials are merged add-if-absent: every pass
only appends containers whose identity was absent, an absent identity
present in the archive ends up in the Store, a present identity's
existing entities are left exactly as they were (the incoming entity is
discarded), the passes take no strategy at all, and archives containing
only definition and material files never raise a conflict signal. -/
theorem C7_definition_material_add_if_absent :
    (∀ (s : Store) (files : List ArchiveEntry),
      ∃ added, (readDefinitions s files).definitions = s.definitions ++ added
        ∧ (∀ c ∈ added, findDefinitionContainers s c.id = [])
        ∧ (readDefinitions s files).instanceContainers = s.instanceContainers
        ∧ (readDefinitions s files).containerStacks = s.containerStacks)
    ∧ (∀ (s : Store) (files : List ArchiveEntry) (e : ArchiveEntry), e ∈ files →
        findDefinitionContainers s (stripFileToId e.path) = [] →
        findDefinitionContainers (readDefinitions s files) (stripFileToId e.path) ≠ [])
    ∧ (∀ (s : Store) (files : List ArchiveEntry) (i : String),
        findDefinitionContainers s i ≠ [] →
        findDefinitionContainers (readDefinitions s files) i = findDefinitionContainers s i)
    ∧ (∀ (s : Store) (files : List ArchiveEntry),
      ∃ added, (readMaterials s files).instanceContainers = s.instanceContainers ++ added
        ∧ (∀ c ∈ added, findInstanceContainers s c.id = [])
        ∧ (readMaterials s files).definitions = s.definitions
        ∧ (readMaterials s files).containerStacks = s.containerStacks)
    ∧ (∀ (s : Store) (files : List ArchiveEntry) (e : ArchiveEntry), e ∈ files →
        findInstanceContainers s (stripFileToId e.path) = [] →
        findInstanceContainers (readMaterials s files) (stripFileToId e.path) ≠ [])
    ∧ (∀ (s : Store) (files : List ArchiveEntry) (i : String),
        findInstanceContainers s i ≠ [] →
        findInstanceContainers (readMaterials s files) i = findInstanceContainers s i)
    ∧ (∀ (meshAccepted : Bool) (d : String) (prev : List (String × String)) (s : Store)
        (archive : List ArchiveEntry),
        (∀ e ∈ archive, pathEndsWith e.path stackSuffix = false) →
        (∀ e ∈ archive, pathEndsWith e.path instanceSuffix = false) →
        (preReadWorkspace meshAccepted d prev s archive).dialogInvoked = false) := by
  refine ⟨?_, ?_, ?_, ?_, ?_, ?_, ?_⟩
  · exact fun s files => readDefinitions_spec files s
  · exact fun s files e he habs => readDefinitions_adds files s e he habs
  · exact fun s files i h => readDefinitions_present_untouched files s i h
  · exact fun s files => readMaterials_spec files s
  · exact fun s files e he habs => readMaterials_adds files s e he habs
  · exact fun s files i h => readMaterials_present_untouched files s i h
  · intro meshAccepted d prev s archive hstack hinst
    exact C8_no_conflict_no_prompt meshAccepted d prev s archive
      (fun e he _ hend => absurd hend (by simp [hstack e he]))
      (fun e he _ hend _ => absurd hend (by simp [hinst e he]))

/-- C7 witness: a definition absent from the empty Store ends up added. -/
theorem C7_witness :
    findDefinitionContainers (readDefinitions emptyStore [newdefEntry])
      (stripFileToId newdefEntry.path) ≠ [] :=
  C7_definition_material_add_if_absent.2.1 emptyStore [newdefEntry] newdefEntry
    (by decide) (by decide)

theorem deserialize_metaType (cid : String) (d : FileData) :
    ((mkInstance cid).deserialize d).metaType = d.metaType := rfl

theorem deserialize_id (cid : String) (d : FileData) :
    ((mkInstance cid).deserialize d).id = cid := rfl

theorem updateFirstInstanceList_map_id (l : List InstanceContainer) (cid : String) (d : FileData) :
    (updateFirstInstanceList l cid d).map (fun c => c.id) = l.map (fun c => c.id) := by
  induction l with
  | nil => rfl
  | cons c rest ih =>
    simp only [updateFirstInstanceList]
    split
    · simp [InstanceContainer.deserialize]
    · simp [ih]

theorem updateFirstStackList_map_id (l : List ContainerStack) (cid : String) (d : FileData) :
    (updateFirstStackList l cid d).map (fun c => c.id) = l.map (fun c => c.id) := by
  induction l with
  | nil => rfl
  | cons c rest ih =>
    simp only [updateFirstStackList]
    split
    · simp [ContainerStack.deserialize]
    · simp [ih]

theorem replaceFirstStackById_map_id (l : List ContainerStack) (st : ContainerStack) :
    (replaceFirstStackById l st).map (fun c => c.id) = l.map (fun c => c.id) := by
  induction l with
  | nil => rfl
  | cons t rest ih =>
    simp only [replaceFirstStackById]
    split
    · rename_i h
      simp [(beq_iff_eq.mp h).symm]
    · simp [ih]

theorem classifyStack_store (ms : MergeState) (st : ContainerStack) :
    (classifyStack ms st).store = ms.store := by
  simp only [classifyStack]
  split <;> rfl

theorem readInstances_override_spec (files : List ArchiveEntry) :
    ∀ (s : Store) (m : IdMap) (qcs : List InstanceContainer),
    ∃ s' m' qcs' added,
      readInstances overrideStrategies s m qcs files = .ok (s', m', qcs')
      ∧ s'.instanceContainers.map (fun c => c.id)
          = s.instanceContainers.map (fun c => c.id) ++ added
      ∧ s'.definitions = s.definitions
      ∧ s'.containerStacks = s.containerStacks := by
  induction files with
  | nil => exact fun s m qcs => ⟨s, m, qcs, [], rfl, by simp, rfl, rfl⟩
  | cons e rest ih =>
    intro s m qcs
    simp only [readInstances, deserialize_metaType, deserialize_id]
    by_cases hu : (e.data.metaType == some "user") = true
    · rw [if_pos hu]
      by_cases habs : (findInstanceContainers s (stripFileToId e.path)).isEmpty
      · rw [if_pos habs]
        obtain ⟨s', m', qcs', added, hrec, hmap, hdefs, hstk⟩ :=
          ih (addInstanceContainer s ((mkInstance (stripFileToId e.path)).deserialize e.data)) m qcs
        refine ⟨s', m', qcs', stripFileToId e.path :: added, hrec, ?_, hdefs, hstk⟩
        rw [hmap]
        simp [addInstanceContainer, deserialize_id]
      · rw [if_neg habs]
        rw [show lookupStrategy overrideStrategies "machine" = .ok "override" from rfl]
        simp only
        rw [if_pos (by rfl)]
        obtain ⟨s', m', qcs', added, hrec, hmap, hdefs, hstk⟩ :=
          ih (updateFirstInstance s (stripFileToId e.path) e.data) m qcs
        refine ⟨s', m', qcs', added, hrec, ?_, hdefs, hstk⟩
        rw [hmap]
        simp [updateFirstInstance, updateFirstInstanceList_map_id]
    · rw [if_neg hu]
      by_cases hq : (e.data.metaType == some "quality_changes") = true
      · rw [if_pos hq]
        by_cases habs : (findInstanceContainers s (stripFileToId e.path)).isEmpty
        · rw [if_pos habs]
          obtain ⟨s', m', qcs', added, hrec, hmap, hdefs, hstk⟩ :=
            ih (addInstanceContainer s ((mkInstance (stripFileToId e.path)).deserialize e.data)) m
              (qcs ++ [(mkInstance (stripFileToId e.path)).deserialize e.data])
          refine ⟨s', m', qcs', stripFileToId e.path :: added, hrec, ?_, hdefs, hstk⟩
          rw [hmap]
          simp [addInstanceContainer, deserialize_id]
        · rw [if_neg habs]
          rw [show lookupStrategy overrideStrategies "quality_changes" = .ok "override" from rfl]
          simp only
          rw [if_pos (by rfl)]
          obtain ⟨s', m', qcs', added, hrec, hmap, hdefs, hstk⟩ :=
            ih (updateFirstInstance s (stripFileToId e.path) e.data) m
              (qcs ++ [(mkInstance (stripFileToId e.path)).deserialize e.data])
          refine ⟨s', m', qcs', added, hrec, ?_, hdefs, hstk⟩
          rw [hmap]
          simp [updateFirstInstance, updateFirstInstanceList_map_id]
      · rw [if_neg hq]
        exact ih s m qcs

theorem readStacks_cons_absent (strategies : List (String × String)) (ms : MergeState)
    (e : ArchiveEntry) (rest : List ArchiveEntry)
    (h : findContainerStacks ms.store (stripFileToId e.path) = []) :
    readStacks strategies ms (e :: rest)
      = readStacks strategies
          (classifyStack
            { ms with store := addContainerStack ms.store ((mkStack (stripFileToId e.path)).deserialize e.data) }
            ((mkStack (stripFileToId e.path)).deserialize e.data)) rest := by
  simp only [readStacks, h]

theorem readStacks_cons_present_override (ms : MergeState) (e : ArchiveEntry)
    (rest : List ArchiveEntry) (stack0 : ContainerStack) (rest0 : List ContainerStack)
    (h : findContainerStacks ms.store (stripFileToId e.path) = stack0 :: rest0) :
    readStacks overrideStrategies ms (e :: rest)
      = readStacks overrideStrategies
          (classifyStack
            { ms with store := updateFirstStack ms.store (stripFileToId e.path) e.data }
            (stack0.deserialize e.data)) rest := by
  simp only [readStacks, h]
  rw [show lookupStrategy overrideStrategies "machine" = .ok "override" from rfl]
  simp only
  rw [if_pos (by rfl)]

theorem readStacks_override_spec (files : List ArchiveEntry) :
    ∀ (ms : MergeState),
    ∃ ms' added,
      readStacks overrideStrategies ms files = .ok ms'
      ∧ ms'.store.containerStacks.map (fun c => c.id)
          = ms.store.containerStacks.map (fun c => c.id) ++ added
      ∧ ms'.store.definitions = ms.store.definitions
      ∧ ms'.store.instanceContainers = ms.store.instanceContainers := by
  induction files with
  | nil => exact fun ms => ⟨ms, [], rfl, by simp, rfl, rfl⟩
  | cons e rest ih =>
    intro ms
    cases hfind : findContainerStacks ms.store (stripFileToId e.path) with
    | nil =>
      rw [readStacks_cons_absent overrideStrategies ms e rest hfind]
      obtain ⟨ms', added, hrec, hmap, hdefs, hinst⟩ :=
        ih (classifyStack
          { ms with store := addContainerStack ms.store ((mkStack (stripFileToId e.path)).deserialize e.data) }
          ((mkStack (stripFileToId e.path)).deserialize e.data))
      refine ⟨ms', ((mkStack (stripFileToId e.path)).deserialize e.data).id :: added,
        hrec, ?_, ?_, ?_⟩
      · rw [hmap, classifyStack_store]
        simp [addContainerStack]
      · rw [hdefs, classifyStack_store]
        rfl
      · rw [hinst, classifyStack_store]
        rfl
    | cons stack0 rest0 =>
      rw [readStacks_cons_present_override ms e rest stack0 rest0 hfind]
      obtain ⟨ms', added, hrec, hmap, hdefs, hinst⟩ :=
        ih (classifyStack
          { ms with store := updateFirstStack ms.store (stripFileToId e.path) e.data }
          (stack0.deserialize e.data))
      refine ⟨ms', added, hrec, ?_, ?_, ?_⟩
      · rw [hmap, classifyStack_store]
        simp [updateFirstStack, updateFirstStackList_map_id]
      · rw [hdefs, classifyStack_store]
        rfl
      · rw [hinst, classifyStack_store]
        rfl

theorem setNextStacks_store_spec (gs : ContainerStack) (exts : List ContainerStack) :
    ∀ (s : Store),
      (setNextStacks gs s exts).1.containerStacks.map (fun c => c.id)
          = s.containerStacks.map (fun c => c.id)
      ∧ (setNextStacks gs s exts).1.definitions = s.definitions
      ∧ (setNextStacks gs s exts).1.instanceContainers = s.instanceContainers := by
  induction exts with
  | nil => exact fun s => ⟨rfl, rfl, rfl⟩
  | cons st rest ih =>
    intro s
    simp only [setNextStacks]
    obtain ⟨h1, h2, h3⟩ := ih (setFirstStackById s { st with nextStack := some gs.id })
    refine ⟨?_, h2.trans rfl, h3.trans rfl⟩
    exact h1.trans (by simp [setFirstStackById, replaceFirstStackById_map_id])

/-- C6: under strategy `override`, every entity (Stack, user Profile,
quality-changes Profile, definition, material) that existed in the Store
pre-import keeps its original identity post-import: the post-import Store
holds, position by position, entities with exactly the pre-import
identities (conflicting ones deserialized in place, identity untouched),
followed only by newly added entities. -/
theorem C6_override_preserves_identity (xmlOk : Bool) (s : Store)
    (archive : List ArchiveEntry) (out : ReadOutcome)
    (h : readWorkspace overrideStrategies xmlOk s archive = .ok out) :
    (∃ a, out.store.definitions.map (fun c => c.id)
        = s.definitions.map (fun c => c.id) ++ a)
    ∧ (∃ b, out.store.instanceContainers.map (fun c => c.id)
        = s.instanceContainers.map (fun c => c.id) ++ b)
    ∧ (∃ cs, out.store.containerStacks.map (fun c => c.id)
        = s.containerStacks.map (fun c => c.id) ++ cs) := by
  simp only [readWorkspace] at h
  set cura := List.filter (fun e => pathStartsWith e.path "Cura/") archive with hcura
  set s1 := readDefinitions s (List.filter (fun e => pathEndsWith e.path definitionSuffix) cura) with hs1d
  set s2 := (if xmlOk = true then
      readMaterials s1 (List.filter (fun e => pathEndsWith e.path materialSuffix) cura)
    else s1) with hs2d
  obtain ⟨addedD, hD, habsD, hDinst, hDstk⟩ :=
    readDefinitions_spec (List.filter (fun e => pathEndsWith e.path definitionSuffix) cura) s
  obtain ⟨addedM, hMinst, habsM, hMdefs, hMstk⟩ :=
    readMaterials_spec (List.filter (fun e => pathEndsWith e.path materialSuffix) cura) s1
  have hs2_defs : s2.definitions = s1.definitions := by
    rw [hs2d]
    split
    · exact hMdefs
    · rfl
  have hs2_inst : ∃ am, s2.instanceContainers.map (fun c => c.id)
      = s1.instanceContainers.map (fun c => c.id) ++ am := by
    rw [hs2d]
    split
    · exact ⟨addedM.map (fun c => c.id), by rw [hMinst, List.map_append]⟩
    · exact ⟨[], by simp⟩
  have hs2_stks : s2.containerStacks = s1.containerStacks := by
    rw [hs2d]
    split
    · exact hMstk
    · rfl
  obtain ⟨s3, m, qcs, ai, hri, hImap, hIdefs, hIstks⟩ :=
    readInstances_override_spec (List.filter (fun e => pathEndsWith e.path instanceSuffix) cura) s2 [] []
  rw [hri] at h
  simp only [] at h
  obtain ⟨ms', as', hrs, hSmap, hSdefs, hSinsts⟩ :=
    readStacks_override_spec (List.filter (fun e => pathEndsWith e.path stackSuffix) cura)
      { store := s3, idMapping := m, globalStack := none, extruderStacks := [] }
  rw [hrs] at h
  rw [show lookupStrategy overrideStrategies "quality_changes" = Except.ok "override" from rfl] at h
  simp only [] at h
  rw [if_neg (by decide)] at h
  simp only [] at h
  cases hgs : ms'.globalStack with
  | none =>
    rw [hgs] at h
    simp at h
  | some gs =>
    rw [hgs] at h
    simp only [Except.ok.injEq] at h
    obtain ⟨hN1, hN2, hN3⟩ := setNextStacks_store_spec gs ms'.extruderStacks ms'.store
    simp only at hSmap hSdefs hSinsts
    refine ⟨⟨addedD.map (fun c => c.id), ?_⟩, ?_, ?_⟩
    · rw [← h]
      simp only
      rw [hN2, hSdefs, hIdefs, hs2_defs, hs1d, hD, List.map_append]
    · obtain ⟨am, ham⟩ := hs2_inst
      refine ⟨am ++ ai, ?_⟩
      rw [← h]
      simp only
      rw [hN3, hSinsts, hImap, ham, hs1d, hDinst, List.append_assoc]
    · refine ⟨as', ?_⟩
      rw [← h]
      simp only
      rw [hN1, hSmap, hIstks, hs2_stks, hs1d, hDstk]

/-- C6 witness: overriding the conflicting `printer` stack keeps its
identity; only the payload comes from the archive. -/
theorem C6_witness :
    (∃ a, w6Out.store.definitions.map (fun c => c.id)
        = printerStore.definitions.map (fun c => c.id) ++ a)
    ∧ (∃ b, w6Out.store.instanceContainers.map (fun c => c.id)
        = printerStore.instanceContainers.map (fun c => c.id) ++ b)
    ∧ (∃ cs, w6Out.store.containerStacks.map (fun c => c.id)
        = printerStore.containerStacks.map (fun c => c.id) ++ cs) :=
  C6_override_preserves_identity true printerStore [printerStackEntry] w6Out (by rfl)

theorem find?_set_findIdx (l : List ContainerRef) (p : ContainerRef → Bool)
    (r r' : ContainerRef) (hf : l.find? p = some r) (hp : p r' = true) :
    (l.set (l.findIdx p) r').find? p = some r' := by
  induction l with
  | nil => simp at hf
  | cons a t ih =>
    by_cases ha : p a = true
    · simp [List.findIdx_cons, ha, List.find?_cons_of_pos _ ha, hp, List.find?_cons_of_pos]
    · rw [List.find?_cons_of_neg _ (by simp [ha])] at hf
      simp only [List.findIdx_cons, ha]
      simp only [cond_false]
      rw [List.set_cons_succ]
      rw [List.find?_cons_of_neg _ (by simp [ha])]
      exact ih hf

theorem stackQcId_replace (st : ContainerStack) (r r' : ContainerRef)
    (hf : findQcRef st = some r) (hty : (r'.refType == some "quality_changes") = true) :
    findQcRef (stackReplaceAt st (qcRefIndex st) r') = some r' := by
  simp only [findQcRef, qcRefIndex, stackReplaceAt] at *
  exact find?_set_findIdx st.containers _ r r' hf hty

theorem stackQcId_of_findQcRef (st : ContainerStack) (r : ContainerRef)
    (hf : findQcRef st = some r) : stackQcId st = some r.refId := by
  simp [stackQcId, hf]

theorem replaceQcInExtruders_spec (oldId : String) (r' : ContainerRef)
    (hty : (r'.refType == some "quality_changes") = true) :
    ∀ (exts : List ContainerStack) (s s2 : Store) (exts2 : List ContainerStack),
    replaceQcInExtruders oldId r' s exts = .ok (s2, exts2) →
    List.Forall₂ (fun st st' => stackQcId st'
        = if stackQcId st = some oldId then some r'.refId else stackQcId st) exts exts2 := by
  intro exts
  induction exts with
  | nil =>
    intro s s2 exts2 h
    simp only [replaceQcInExtruders, Except.ok.injEq] at h
    cases h
    exact List.Forall₂.nil
  | cons st rest ih =>
    intro s s2 exts2 h
    simp only [replaceQcInExtruders] at h
    cases hf : findQcRef st with
    | none => rw [hf] at h; simp at h
    | some oldRef =>
      rw [hf] at h
      simp only [] at h
      by_cases hb : (oldRef.refId == oldId) = true
      · rw [if_pos hb] at h
        cases hrec : replaceQcInExtruders oldId r'
            (setFirstStackById s (stackReplaceAt st (qcRefIndex st) r')) rest with
        | error err => rw [hrec] at h; simp at h
        | ok pr =>
          rw [hrec] at h
          simp only [] at h
          obtain ⟨p1, p2⟩ := pr
          simp only [Except.ok.injEq, Prod.mk.injEq] at h
          obtain ⟨h1, h2⟩ := h
          subst h1
          subst h2
          refine List.Forall₂.cons ?_ (ih _ _ _ hrec)
          have hqc : stackQcId st = some oldId := by
            rw [stackQcId_of_findQcRef st oldRef hf]
            simpa using hb
          rw [if_pos hqc]
          exact stackQcId_of_findQcRef _ r' (stackQcId_replace st oldRef r' hf hty)
      · rw [if_neg hb] at h
        cases hrec : replaceQcInExtruders oldId r' s rest with
        | error err => rw [hrec] at h; simp at h
        | ok pr =>
          rw [hrec] at h
          simp only [] at h
          obtain ⟨p1, p2⟩ := pr
          simp only [Except.ok.injEq, Prod.mk.injEq] at h
          obtain ⟨h1, h2⟩ := h
          subst h1
          subst h2
          refine List.Forall₂.cons ?_ (ih _ _ _ hrec)
          have hqc : stackQcId st = some oldRef.refId := stackQcId_of_findQcRef st oldRef hf
          rw [if_neg (by rw [hqc]; simpa using hb)]



/-- C2 (amended): under strategy `new` for a deferred quality-changes
profile, when the global machine Stack's active quality-changes reference
equals the profile's old identity, only the global Stack is re-pointed at
the newly allocated identity and the extruder Stacks are left unchanged —
the loop `continue`s after patching the global Stack — even if an extruder
Stack references the same old identity; extruder Stacks are patched only
when the global Stack's reference does not match. -/
theorem C2_amended_deferred_replacement (ms : MergeState) (c : InstanceContainer)
    (gs : ContainerStack) (r : ContainerRef)
    (hgs : ms.globalStack = some gs) (hfind : findQcRef gs = some r)
    (hty : c.metaType = some "quality_changes") :
    (r.refId = c.id →
      ∃ ms', applyQcNew ms [c] = .ok ms'
        ∧ ms'.extruderStacks = ms.extruderStacks
        ∧ ∃ gs', ms'.globalStack = some gs'
            ∧ stackQcId gs' = some ((getNewId ms.store ms.idMapping c.id).1))
    ∧ (r.refId ≠ c.id →
      ∀ ms', applyQcNew ms [c] = .ok ms' →
        ms'.globalStack = some gs
        ∧ List.Forall₂ (fun st st' => stackQcId st'
            = if stackQcId st = some c.id
              then some ((getNewId ms.store ms.idMapping c.id).1)
              else stackQcId st) ms.extruderStacks ms'.extruderStacks) := by
  have hty2 : ((refOfInstance { c with name := uniqueName ms.store c.name, id := (getNewId ms.store ms.idMapping c.id).1 }).refType == some "quality_changes") = true := by
    simp [refOfInstance, hty]
  constructor
  · intro hrid
    have hstep : applyQcNew ms [c] = .ok { store := setFirstStackById (addInstanceContainer ms.store { c with name := uniqueName ms.store c.name, id := (getNewId ms.store ms.idMapping c.id).1 }) (stackReplaceAt gs (qcRefIndex gs) (refOfInstance { c with name := uniqueName ms.store c.name, id := (getNewId ms.store ms.idMapping c.id).1 })), idMapping := (getNewId ms.store ms.idMapping c.id).2, globalStack := some (stackReplaceAt gs (qcRefIndex gs) (refOfInstance { c with name := uniqueName ms.store c.name, id := (getNewId ms.store ms.idMapping c.id).1 })), extruderStacks := ms.extruderStacks } := by
      simp only [applyQcNew, applyQcNewOne, hgs, hfind]
      rw [if_pos (by simp [hrid])]
    refine ⟨_, hstep, rfl, _, rfl, ?_⟩
    have hrep := stackQcId_replace gs r (refOfInstance { c with name := uniqueName ms.store c.name, id := (getNewId ms.store ms.idMapping c.id).1 }) hfind hty2
    rw [stackQcId_of_findQcRef _ _ hrep]
    rfl
  · intro hrid ms' h
    simp only [applyQcNew, applyQcNewOne, hgs, hfind] at h
    rw [if_neg (by simp [hrid])] at h
    cases hre : replaceQcInExtruders c.id (refOfInstance { c with name := uniqueName ms.store c.name, id := (getNewId ms.store ms.idMapping c.id).1 }) (addInstanceContainer ms.store { c with name := uniqueName ms.store c.name, id := (getNewId ms.store ms.idMapping c.id).1 }) ms.extruderStacks with
    | error err =>
      rw [hre] at h
      simp at h
    | ok pr =>
      rw [hre] at h
      simp only [] at h
      obtain ⟨p1, p2⟩ := pr
      simp only [Except.ok.injEq] at h
      subst h
      refine ⟨rfl, ?_⟩
      have hspec := replaceQcInExtruders_spec c.id (refOfInstance { c with name := uniqueName ms.store c.name, id := (getNewId ms.store ms.idMapping c.id).1 }) hty2 ms.extruderStacks _ _ _ hre
      simpa [refOfInstance] using hspec

/-- C2 counterexample: `fast_print` is referenced by both the machine
Stack and an extruder Stack; after the deferred phase the machine Stack
references the new identity but the extruder Stack still references
`fast_print`, contradicting the claim that every such Stack ends up on
the new identity. -/
theorem C2_counterexample :
    (applyQcNew c2State [c2Qc]).map
        (fun ms => (ms.globalStack.map stackQcId, ms.extruderStacks.map stackQcId))
      = .ok (some (some "fast_print_xxxxxxxxxxx"), [some "fast_print"])
    ∧ ("fast_print_xxxxxxxxxxx" : String) ≠ "fast_print" :=
  ⟨by rfl, by decide⟩

/-- C2 witness for the amended theorem, on the concrete `fast_print`
scenario. -/
theorem C2_witness :
    ∃ ms', applyQcNew c2State [c2Qc] = .ok ms'
      ∧ ms'.extruderStacks = c2State.extruderStacks
      ∧ ∃ gs', ms'.globalStack = some gs'
          ∧ stackQcId gs' = some ((getNewId c2State.store c2State.idMapping c2Qc.id).1) :=
  (C2_amended_deferred_replacement c2State c2Qc c2Global
      { refId := "fast_print", refType := some "quality_changes" } rfl (by rfl) rfl).1 rfl
